import Mathlib

/-!
Shallow embedding of the keystore core of the repository (package
`keystore`, file `core/services/keystore/master.go`, plus the transactional
executor in `core/services/postgres/sqlx.go`).

Conventions of the embedding:
* Go's `(T, error)` returns become `Except Err T`; `errors.Wrap(err, msg)`
  becomes the `Err.wrap msg err` constructor.
* The mutexes are not modelled: every operation in `master.go` holds the
  single lock for its whole duration, so each Go method becomes a pure
  function from the guarded state to a result together with the new state.
* Go maps (one per key family) become association lists with map semantics:
  `mapInsert` overwrites the binding of an existing id in place and appends
  a fresh one, `mapErase` deletes a binding — matching `SetMapIndex` with a
  value resp. with the zero `reflect.Value`.
* The ORM and the encryption envelope are collaborators (out of the spec's
  scope); they appear as parameters.  The `saveLog` field of `keyManager`
  is ghost instrumentation: it records each call made to the collaborator's
  `saveEncryptedKeyRing`, and nothing in the embedded code reads it back.
-/

namespace Keystore

/-- Error taxonomy.  `locked`, `passwordMismatch`, `wrap` are produced by
the code in `master.go`; `notFound`, `decryptionError`, `validationError`
are the collaborator failures named by the spec; `unknownKeyType` is the
error of `getFieldNameForKey`; `invalidDbType` is the error of
`SqlxTransaction`; `persistence` stands for an arbitrary store failure;
`migration` is the family-tagged wrapper the spec calls MigrationError. -/
inductive Err where
  | locked
  | passwordMismatch
  | notFound
  | decryptionError
  | validationError
  | unknownKeyType (typeName : String)
  | invalidDbType
  | persistence (msg : String)
  | migration (family : String) (inner : Err)
  | wrap (msg : String) (inner : Err)
deriving DecidableEq, Repr

/-- The concrete Go type of a key value: one of the five key families of
`getFieldNameForKey`, or any other type (`foreign t` models a value of
dynamic type named `t` that is none of the five). -/
inductive KeyVariant where
  | csa
  | eth
  | ocr
  | p2p
  | vrf
  | foreign (typeName : String)
deriving DecidableEq, Repr

/-- A key value: its concrete variant, its stable identifier (Go's
`ID() string`), and opaque key material distinguishing different keys
that share an id. -/
structure Key where
  variant : KeyVariant
  id : String
  material : Nat
deriving DecidableEq, Repr

/-- Go's `Key` interface method `ID()`. -/
def Key.ID (k : Key) : String := k.id

/-- One family map of the key ring: a Go `map[string]Key` as an
association list. -/
abbrev KeyMap := List (String × Key)

/-- Go map read `m[id]`. -/
def mapLookup : KeyMap → String → Option Key
  | [], _ => none
  | (i, k) :: rest, id => if i = id then some k else mapLookup rest id

/-- Go map write `m[id] = k` (`SetMapIndex` with a value): overwrites an
existing binding in place, appends a fresh one. -/
def mapInsert : KeyMap → String → Key → KeyMap
  | [], id, k => [(id, k)]
  | (i, k0) :: rest, id, k =>
    if i = id then (id, k) :: rest else (i, k0) :: mapInsert rest id k

/-- Go map delete (`SetMapIndex` with the zero `reflect.Value`). -/
def mapErase : KeyMap → String → KeyMap
  | [], _ => []
  | (i, k0) :: rest, id =>
    if i = id then mapErase rest id else (i, k0) :: mapErase rest id

/-- The representation invariant of a Go map: ids bound at most once. -/
def KeyMap.NodupKeys (m : KeyMap) : Prop := (m.map Prod.fst).Nodup

instance (m : KeyMap) : Decidable m.NodupKeys := by
  unfold KeyMap.NodupKeys
  infer_instance

/-- Two association lists denote the same Go map. -/
def KeyMap.EquivMap (m1 m2 : KeyMap) : Prop :=
  ∀ id, mapLookup m1 id = mapLookup m2 id

/-- The struct `keyRing` of the repository: one map per key family. -/
structure keyRing where
  CSA : KeyMap
  Eth : KeyMap
  OCR : KeyMap
  P2P : KeyMap
  VRF : KeyMap
deriving DecidableEq, Repr

/-- The zero value of `keyRing` (all maps empty). -/
def emptyKeyRing : keyRing := ⟨[], [], [], [], []⟩

/-- Reflective field read `reflect.ValueOf(keyRing).FieldByName(name)` for
the field names `getFieldNameForKey` can produce. -/
def keyRing.getFieldMap (kr : keyRing) (f : String) : KeyMap :=
  if f = "CSA" then kr.CSA
  else if f = "Eth" then kr.Eth
  else if f = "OCR" then kr.OCR
  else if f = "P2P" then kr.P2P
  else if f = "VRF" then kr.VRF
  else []

/-- Reflective field write, companion of `keyRing.getFieldMap`. -/
def keyRing.setFieldMap (kr : keyRing) (f : String) (m : KeyMap) : keyRing :=
  if f = "CSA" then { kr with CSA := m }
  else if f = "Eth" then { kr with Eth := m }
  else if f = "OCR" then { kr with OCR := m }
  else if f = "P2P" then { kr with P2P := m }
  else if f = "VRF" then { kr with VRF := m }
  else kr

/-- One persisted per-Eth-key operational state row. -/
structure ethKeyState where
  keyID : String
  chainID : Nat
  enabled : Bool
deriving DecidableEq, Repr

/-- The loaded key states. -/
abbrev keyStates := List ethKeyState

/-- Modelled from the spec: `validate(KeyStates, KeyRing)` of the Key-Ring
Store contract (its body is not part of the given sources) — "validates
every referenced key id exists in the decrypted ring (fails with
ValidationError otherwise)"; the states reference Eth keys only. -/
def keyStates.validate (ks : keyStates) (kr : keyRing) : Except Err Unit :=
  if ks.all (fun st => (mapLookup kr.Eth st.keyID).isSome) then .ok ()
  else .error .validationError

/-- The durable encrypted form of one key-ring snapshot.  Modelled from the
spec: the envelope math is an out-of-scope collaborator, so the ciphertext
is kept symbolically as the ring together with the password and the
derivation parameters used to produce it. -/
structure EncryptedKeyRing where
  ring : keyRing
  password : String
  scryptParams : Nat
deriving DecidableEq, Repr

/-- Modelled from the spec: encryption of the whole ring with the cached
password and derivation parameters. -/
def keyRing.Encrypt (kr : keyRing) (password : String) (scryptParams : Nat) :
    EncryptedKeyRing :=
  ⟨kr, password, scryptParams⟩

/-- Modelled from the spec: decryption "fails with DecryptionError on wrong
password or corrupt ciphertext" and otherwise returns the encrypted
snapshot. -/
def EncryptedKeyRing.Decrypt (ekr : EncryptedKeyRing) (password : String) :
    Except Err keyRing :=
  if password = ekr.password then .ok ekr.ring else .error .decryptionError

/-- An auxiliary write passed to `save` (Go: `func(postgres.Queryer) error`
callbacks); in this core the only such write is an Eth key-state row. -/
inductive ExtraWrite where
  | ethState (st : ethKeyState)
deriving DecidableEq, Repr

/-- Record of one call to the store's `saveEncryptedKeyRing`. -/
structure SaveCall where
  ekr : EncryptedKeyRing
  extraWrites : List ExtraWrite
deriving DecidableEq, Repr

/-- The Key-Ring Store (ORM) collaborator: the outcomes it returns for the
fetch, the key-state load, and the n-th save call of the run. -/
structure ksORM where
  getEncryptedKeyRing : Except Err EncryptedKeyRing
  loadKeyStates : Except Err keyStates
  saveResult : Nat → Except Err Unit

/-- The struct `keyManager`: the lock-guarded state {password, key ring,
key states} plus collaborator handles.  `saveLog` is ghost instrumentation
recording the calls made to `saveEncryptedKeyRing`. -/
structure keyManager where
  orm : ksORM
  scryptParams : Nat
  keyRing : keyRing
  keyStates : keyStates
  password : String
  saveLog : List SaveCall

/-- Go `isLocked`: true iff the password is empty. -/
def keyManager.isLocked (km : keyManager) : Bool := km.password.length == 0

/-- Go `keyManager.Unlock`.  Note the source assigns `km.keyRing = kr`
before loading and validating key states; the password is assigned last. -/
def keyManager.Unlock (km : keyManager) (password : String) :
    Except Err Unit × keyManager :=
  if km.password ≠ "" then
    if password ≠ km.password then (.error .passwordMismatch, km)
    else (.ok (), km)
  else
    match km.orm.getEncryptedKeyRing with
    | .error e => (.error (.wrap "unable to get encrypted key ring" e), km)
    | .ok ekr =>
      match ekr.Decrypt password with
      | .error e => (.error (.wrap "unable to decrypt encrypted key ring" e), km)
      | .ok kr =>
        let km1 := { km with keyRing := kr }
        match km1.orm.loadKeyStates with
        | .error e => (.error (.wrap "unable to load key states" e), km1)
        | .ok ks =>
          match keyStates.validate ks kr with
          | .error e => (.error e, km1)
          | .ok _ => (.ok (), { km1 with keyStates := ks, password := password })

/-- Go `keyManager.save`: re-encrypts the whole current ring and asks the
store to persist it together with the extra writes.  The call is recorded
in the ghost log; its outcome is the collaborator's verdict for this
(numbered) call. -/
def keyManager.save (km : keyManager) (callbacks : List ExtraWrite) :
    Except Err Unit × keyManager :=
  let ekb := km.keyRing.Encrypt km.password km.scryptParams
  let r := km.orm.saveResult km.saveLog.length
  (r, { km with saveLog := km.saveLog ++ [⟨ekb, callbacks⟩] })

/-- Go `getFieldNameForKey`: dispatch from the concrete key type to the
name of its family map. -/
def getFieldNameForKey (unknownKey : Key) : Except Err String :=
  match unknownKey.variant with
  | .csa => .ok "CSA"
  | .eth => .ok "Eth"
  | .ocr => .ok "OCR"
  | .p2p => .ok "P2P"
  | .vrf => .ok "VRF"
  | .foreign t => .error (.unknownKeyType t)

/-- Go `keyManager.safeAddKey`: insert into the family map, save; if save
fails, delete the id's binding again and return the error. -/
def keyManager.safeAddKey (km : keyManager) (unknownKey : Key)
    (callbacks : List ExtraWrite) : Except Err Unit × keyManager :=
  match getFieldNameForKey unknownKey with
  | .error e => (.error e, km)
  | .ok fieldName =>
    let id := unknownKey.ID
    let kr1 := km.keyRing.setFieldMap fieldName
      (mapInsert (km.keyRing.getFieldMap fieldName) id unknownKey)
    let km1 := { km with keyRing := kr1 }
    match km1.save callbacks with
    | (.error e, km2) =>
      let kr2 := km2.keyRing.setFieldMap fieldName
        (mapErase (km2.keyRing.getFieldMap fieldName) id)
      (.error e, { km2 with keyRing := kr2 })
    | (.ok _, km2) => (.ok (), km2)

/-- Go `keyManager.safeRemoveKey`: delete from the family map, save; if
save fails, re-insert the passed key value and return the error. -/
def keyManager.safeRemoveKey (km : keyManager) (unknownKey : Key)
    (callbacks : List ExtraWrite) : Except Err Unit × keyManager :=
  match getFieldNameForKey unknownKey with
  | .error e => (.error e, km)
  | .ok fieldName =>
    let id := unknownKey.ID
    let kr1 := km.keyRing.setFieldMap fieldName
      (mapErase (km.keyRing.getFieldMap fieldName) id)
    let km1 := { km with keyRing := kr1 }
    match km1.save callbacks with
    | (.error e, km2) =>
      let kr2 := km2.keyRing.setFieldMap fieldName
        (mapInsert (km2.keyRing.getFieldMap fieldName) id unknownKey)
      (.error e, { km2 with keyRing := kr2 })
    | (.ok _, km2) => (.ok (), km2)

/-- Modelled from the spec: the Eth facade's `addEthKeyWithState` (its body
is not part of the given sources) — the key is added through the single-key
transaction with "the corresponding state write ... as an extraWrite to
save", so the key and its state row become durable together. -/
def keyManager.addEthKeyWithState (km : keyManager) (key : Key)
    (state : ethKeyState) : Except Err Unit × keyManager :=
  km.safeAddKey key [.ethState state]

/-- The legacy key source behind the facades' `GetV1KeysAsV2` calls
(collaborator-specific decode, out of the spec's scope): the outcome of
each family's legacy fetch.  The Eth fetch returns keys and their chain
states as parallel lists. -/
structure LegacySource where
  csaKeys : Except Err (List Key)
  ocrKeys : Except Err (List Key)
  p2pKeys : Except Err (List Key)
  vrfKeys : Except Err (List Key)
  ethKeys : Except Err (List Key × List ethKeyState)

/-- One family loop of `Migrate`: for each legacy key in order, skip it if
its id already exists in the current map, otherwise write it directly into
the map. -/
def migrateKeysInto (m : KeyMap) : List Key → KeyMap
  | [] => m
  | k :: rest =>
    if (mapLookup m k.ID).isSome then migrateKeysInto m rest
    else migrateKeysInto (mapInsert m k.ID k) rest

/-- The Eth loop of `Migrate` (the source iterates `ethKeys` and indexes
`states[idx]`; here the two parallel lists arrive zipped): skip ids already
in the ring, otherwise `addEthKeyWithState` followed by a further plain
`save`, stopping at the first error. -/
def migrateEthKeys (km : keyManager) :
    List (Key × ethKeyState) → Except Err Unit × keyManager
  | [] => (.ok (), km)
  | (k, st) :: rest =>
    if (mapLookup km.keyRing.Eth k.ID).isSome then migrateEthKeys km rest
    else
      match km.addEthKeyWithState k st with
      | (.error e, km1) => (.error e, km1)
      | (.ok _, km1) =>
        match km1.save [] with
        | (.error e, km2) => (.error e, km2)
        | (.ok _, km2) => migrateEthKeys km2 rest

/-- Go `master.Migrate`: under the held lock, merge the CSA, OCR, P2P and
VRF legacy keys into the in-memory ring in that fixed order (returning any
fetch error as-is), persist them with one `save`, then fetch the legacy Eth
keys and run the per-key Eth loop. -/
def master.Migrate (km : keyManager) (src : LegacySource) :
    Except Err Unit × keyManager :=
  if km.isLocked then (.error .locked, km)
  else
    match src.csaKeys with
    | .error e => (.error e, km)
    | .ok csaKeys =>
      let km := { km with keyRing :=
        { km.keyRing with CSA := migrateKeysInto km.keyRing.CSA csaKeys } }
      match src.ocrKeys with
      | .error e => (.error e, km)
      | .ok ocrKeys =>
        let km := { km with keyRing :=
          { km.keyRing with OCR := migrateKeysInto km.keyRing.OCR ocrKeys } }
        match src.p2pKeys with
        | .error e => (.error e, km)
        | .ok p2pKeys =>
          let km := { km with keyRing :=
            { km.keyRing with P2P := migrateKeysInto km.keyRing.P2P p2pKeys } }
          match src.vrfKeys with
          | .error e => (.error e, km)
          | .ok vrfKeys =>
            let km := { km with keyRing :=
              { km.keyRing with VRF := migrateKeysInto km.keyRing.VRF vrfKeys } }
            match km.save [] with
            | (.error e, km1) => (.error e, km1)
            | (.ok _, km1) =>
              match src.ethKeys with
              | .error e => (.error e, km1)
              | .ok ethLegacy =>
                migrateEthKeys km1 (ethLegacy.1.zip ethLegacy.2)

/-- A handle passed to the transactional executor: an open transaction, a
plain connection, or a value of any other dynamic type named t. -/
inductive Queryer where
  | tx (id : Nat)
  | db (id : Nat)
  | other (typeName : String)
deriving DecidableEq, Repr

/-- Observable events of one executor call: opening, committing or rolling
back a transaction, and running the callback against a handle. -/
inductive TxEvent where
  | beginTx
  | commitTx
  | rollbackTx
  | runFn (q : Queryer)
deriving DecidableEq, Repr

/-- Modelled from the spec: `sqlxTransactionQ` (its body is not part of the
given sources) — "a new transaction is opened, committed on success, and
rolled back on any error"; the callback runs against the fresh transaction
handle derived from the connection. -/
def sqlxTransactionQ (i : Nat) (fc : Queryer → Except Err Unit) :
    Except Err Unit × List TxEvent :=
  match fc (.tx i) with
  | .ok _ => (.ok (), [.beginTx, .runFn (.tx i), .commitTx])
  | .error e => (.error e, [.beginTx, .runFn (.tx i), .rollbackTx])

/-- Go `SqlxTransaction` (core/services/postgres/sqlx.go): an open
transaction is reused directly, a plain connection gets a fresh
transaction, and any other handle type is rejected unless the test-only
override `AllowUnknownQueryerTypeInTransaction` is set, in which case the
callback runs against the handle as-is. -/
def SqlxTransaction (allowUnknownQueryerTypeInTransaction : Bool)
    (q : Queryer) (fc : Queryer → Except Err Unit) :
    Except Err Unit × List TxEvent :=
  match q with
  | .tx i => (fc (.tx i), [.runFn (.tx i)])
  | .db i => sqlxTransactionQ i fc
  | .other t =>
    if allowUnknownQueryerTypeInTransaction then (fc (.other t), [.runFn (.other t)])
    else (.error .invalidDbType, [])

/-! ### Derived notions used in theorem statements -/

/-- Two rings denote the same Go maps (family-wise lookup equality). -/
def keyRing.Equiv (kr1 kr2 : keyRing) : Prop :=
  KeyMap.EquivMap kr1.CSA kr2.CSA ∧ KeyMap.EquivMap kr1.Eth kr2.Eth ∧
  KeyMap.EquivMap kr1.OCR kr2.OCR ∧ KeyMap.EquivMap kr1.P2P kr2.P2P ∧
  KeyMap.EquivMap kr1.VRF kr2.VRF

/-- Every family map of the ring satisfies the Go-map invariant (each id
bound at most once). -/
def keyRing.NodupAll (kr : keyRing) : Prop :=
  kr.CSA.NodupKeys ∧ kr.Eth.NodupKeys ∧ kr.OCR.NodupKeys ∧
  kr.P2P.NodupKeys ∧ kr.VRF.NodupKeys

/-- The ring after the four-family bulk merge of Migrate (Eth untouched). -/
def mergedFamilies (kr : keyRing) (cs os ps vs : List Key) : keyRing :=
  { kr with
    CSA := migrateKeysInto kr.CSA cs
    OCR := migrateKeysInto kr.OCR os
    P2P := migrateKeysInto kr.P2P ps
    VRF := migrateKeysInto kr.VRF vs }

/-- Ring evolution and persistence calls of the Eth phase of Migrate: each
legacy key whose id is already present is skipped; each fresh one is
inserted and produces two store calls — one save of the grown ring carrying
the key's chain-state write, then one further plain save. -/
def ethMigrationTrace (ring : keyRing) (pw : String) (sp : Nat) :
    List (Key × ethKeyState) → keyRing × List SaveCall
  | [] => (ring, [])
  | (k, st) :: rest =>
    if (mapLookup ring.Eth k.ID).isSome then ethMigrationTrace ring pw sp rest
    else
      let ring1 := { ring with Eth := mapInsert ring.Eth k.ID k }
      let r := ethMigrationTrace ring1 pw sp rest
      (r.1, ⟨ring1.Encrypt pw sp, [.ethState st]⟩ :: ⟨ring1.Encrypt pw sp, []⟩ :: r.2)

/-- The persistence trace the claim describes for the Eth phase: exactly
one save per fresh key, carrying that key's chain-state write.  (Stated
from the claim's words, to be compared with the code's actual trace.) -/
def claimedEthSaveWrites (ethMap : KeyMap) :
    List (Key × ethKeyState) → List (List ExtraWrite)
  | [] => []
  | (k, st) :: rest =>
    if (mapLookup ethMap k.ID).isSome then claimedEthSaveWrites ethMap rest
    else [ExtraWrite.ethState st] :: claimedEthSaveWrites (mapInsert ethMap k.ID k) rest

/-! ### Concrete sample values for witnesses and counterexamples -/

/-- A sample Eth key. -/
def ethKey1 : Key := ⟨.eth, "addr1", 1⟩

/-- A different Eth key value with the same id as ethKey1. -/
def ethKey1b : Key := ⟨.eth, "addr1", 2⟩

/-- A sample CSA key. -/
def csaKey1 : Key := ⟨.csa, "csa1", 3⟩

/-- A key value of a dynamic type that is none of the five families. -/
def foreignKey1 : Key := ⟨.foreign "ocr2key.KeyBundle", "x", 0⟩

/-- A sample chain-state row for ethKey1. -/
def state1 : ethKeyState := ⟨"addr1", 42, true⟩

/-- A ring holding just ethKey1. -/
def sampleRing : keyRing := { emptyKeyRing with Eth := [("addr1", ethKey1)] }

/-- A store in which every operation succeeds. -/
def ormAllOK : ksORM :=
  ⟨.ok (sampleRing.Encrypt "pw" 7), .ok [], fun _ => .ok ()⟩

/-- A store whose saves all fail. -/
def ormSaveFail : ksORM :=
  ⟨.ok (sampleRing.Encrypt "pw" 7), .ok [], fun _ => .error (.persistence "boom")⟩

/-- A store with no encrypted key ring row. -/
def ormNotFound : ksORM := ⟨.error .notFound, .ok [], fun _ => .ok ()⟩

/-- A store whose key-state load fails. -/
def ormLoadStatesFail : ksORM :=
  ⟨.ok (sampleRing.Encrypt "pw" 7), .error (.persistence "down"), fun _ => .ok ()⟩

/-- A locked manager (empty password, empty ring) over the given store. -/
def lockedKM (o : ksORM) : keyManager := ⟨o, 7, emptyKeyRing, [], "", []⟩

/-- An unlocked manager with password "pw" over the given store and ring. -/
def unlockedKM (o : ksORM) (kr : keyRing) : keyManager := ⟨o, 7, kr, [], "pw", []⟩

/-- A sample legacy Eth key to be migrated. -/
def legacyEthKey : Key := ⟨.eth, "e1", 5⟩

/-- The chain state of legacyEthKey. -/
def legacyEthState : ethKeyState := ⟨"e1", 42, true⟩

/-- A legacy source holding one fresh Eth key and nothing else. -/
def ethLegacySource : LegacySource :=
  ⟨.ok [], .ok [], .ok [], .ok [], .ok ([legacyEthKey], [legacyEthState])⟩

/-- A legacy source whose P2P fetch fails after CSA and OCR succeed. -/
def p2pFailSource : LegacySource :=
  ⟨.ok [csaKey1], .ok [], .error (.persistence "boom"),
   .ok [⟨.vrf, "v1", 9⟩], .ok ([legacyEthKey], [legacyEthState])⟩

/-! ### Basic lemmas about the map operations -/

theorem mapLookup_insert_self (m : KeyMap) (id : String) (k : Key) :
    mapLookup (mapInsert m id k) id = some k := by
  induction m with
  | nil => simp [mapInsert, mapLookup]
  | cons p rest ih =>
    obtain ⟨i, k0⟩ := p
    by_cases h : i = id
    · simp [mapInsert, mapLookup, h]
    · simp [mapInsert, mapLookup, h, ih]

theorem mapLookup_insert_ne (m : KeyMap) (id i : String) (k : Key) (h : i ≠ id) :
    mapLookup (mapInsert m id k) i = mapLookup m i := by
  have hne : ¬ id = i := fun hh => h hh.symm
  induction m with
  | nil => simp [mapInsert, mapLookup, hne]
  | cons p rest ih =>
    obtain ⟨j, k0⟩ := p
    by_cases hj : j = id
    · subst hj
      simp [mapInsert, mapLookup, hne]
    · simp [mapInsert, mapLookup, hj, ih]

theorem mapLookup_erase_self (m : KeyMap) (id : String) :
    mapLookup (mapErase m id) id = none := by
  induction m with
  | nil => simp [mapErase, mapLookup]
  | cons p rest ih =>
    obtain ⟨i, k0⟩ := p
    by_cases h : i = id
    · simp [mapErase, h, ih]
    · simp [mapErase, mapLookup, h, ih]

theorem mapLookup_erase_ne (m : KeyMap) (id i : String) (h : i ≠ id) :
    mapLookup (mapErase m id) i = mapLookup m i := by
  have hne : ¬ id = i := fun hh => h hh.symm
  induction m with
  | nil => simp [mapErase]
  | cons p rest ih =>
    obtain ⟨j, k0⟩ := p
    by_cases hj : j = id
    · subst hj
      simp [mapErase, mapLookup, hne, ih]
    · simp [mapErase, mapLookup, hj, ih]

theorem mapErase_insert_fresh (m : KeyMap) (id : String) (k : Key)
    (h : mapLookup m id = none) : mapErase (mapInsert m id k) id = m := by
  induction m with
  | nil => simp [mapInsert, mapErase]
  | cons p rest ih =>
    obtain ⟨i, k0⟩ := p
    by_cases hi : i = id
    · simp [mapLookup, hi] at h
    · simp [mapLookup, hi] at h
      simp [mapInsert, mapErase, hi, ih h]

theorem mapInsert_erase_equiv (m : KeyMap) (id : String) (k : Key)
    (h : mapLookup m id = some k) :
    KeyMap.EquivMap (mapInsert (mapErase m id) id k) m := by
  intro i
  by_cases hi : i = id
  · subst hi
    rw [mapLookup_insert_self, h]
  · rw [mapLookup_insert_ne _ _ _ _ hi, mapLookup_erase_ne _ _ _ hi]

theorem mapLookup_isSome_insert (m : KeyMap) (id i : String) (k : Key)
    (h : (mapLookup m i).isSome) : (mapLookup (mapInsert m id k) i).isSome := by
  by_cases hi : i = id
  · subst hi
    rw [mapLookup_insert_self]
    rfl
  · rwa [mapLookup_insert_ne _ _ _ _ hi]

theorem mapInsert_keys (m : KeyMap) (id : String) (k : Key) :
    (mapInsert m id k).map Prod.fst =
      if id ∈ m.map Prod.fst then m.map Prod.fst else m.map Prod.fst ++ [id] := by
  induction m with
  | nil => simp [mapInsert]
  | cons p rest ih =>
    obtain ⟨i, k0⟩ := p
    by_cases hi : i = id
    · simp [mapInsert, hi]
    · simp only [mapInsert, if_neg hi, List.map_cons, ih, List.mem_cons]
      have : ¬ id = i := fun hh => hi hh.symm
      by_cases hm : id ∈ rest.map Prod.fst
      · simp [hm, this]
      · simp [hm, this]

theorem mapInsert_nodup (m : KeyMap) (id : String) (k : Key)
    (h : m.NodupKeys) : (mapInsert m id k).NodupKeys := by
  unfold KeyMap.NodupKeys at h ⊢
  rw [mapInsert_keys]
  by_cases hm : id ∈ m.map Prod.fst
  · simpa [hm] using h
  · simp only [hm, if_false]
    exact List.Nodup.append h (List.nodup_singleton id)
      ((List.disjoint_singleton).mpr hm)

/-- Number of entries of the map bound to a given id. -/
def KeyMap.countId (m : KeyMap) (id : String) : Nat := (m.map Prod.fst).count id

theorem mapInsert_countId (m : KeyMap) (id : String) (k : Key)
    (h : m.NodupKeys) : (mapInsert m id k).countId id = 1 := by
  unfold KeyMap.countId
  rw [mapInsert_keys]
  by_cases hm : id ∈ m.map Prod.fst
  · simp only [hm, if_true]
    exact List.count_eq_one_of_mem h hm
  · simp [hm, List.count_append, List.count_eq_zero_of_not_mem hm]

/-! ### Helper lemmas about the keyManager operations -/

theorem isLocked_eq_false {km : keyManager} (h : km.password ≠ "") :
    km.isLocked = false := by
  unfold keyManager.isLocked
  rw [beq_eq_false_iff_ne]
  intro h0
  apply h
  cases hp : km.password with
  | mk data =>
    rw [hp] at h0
    cases data with
    | nil => rfl
    | cons c cs => simp [String.length] at h0

theorem isLocked_eq_true {km : keyManager} (h : km.password = "") :
    km.isLocked = true := by
  unfold keyManager.isLocked
  rw [h]
  rfl

theorem safeAddKey_eth_save_ok (km : keyManager) (k : Key) (cbs : List ExtraWrite)
    (hv : k.variant = .eth)
    (hs : km.orm.saveResult km.saveLog.length = .ok ()) :
    km.safeAddKey k cbs =
      (.ok (), { km with
        keyRing := { km.keyRing with Eth := mapInsert km.keyRing.Eth k.ID k },
        saveLog := km.saveLog ++
          [⟨keyRing.Encrypt { km.keyRing with Eth := mapInsert km.keyRing.Eth k.ID k }
              km.password km.scryptParams, cbs⟩] }) := by
  simp [keyManager.safeAddKey, getFieldNameForKey, hv, keyRing.getFieldMap,
    keyRing.setFieldMap, keyManager.save, hs]

theorem safeAddKey_password (km : keyManager) (k : Key) (cbs : List ExtraWrite) :
    ((km.safeAddKey k cbs).2).password = km.password := by
  cases hv : k.variant <;>
    simp only [keyManager.safeAddKey, getFieldNameForKey, hv, keyManager.save] <;>
    first
      | rfl
      | (cases hs : km.orm.saveResult km.saveLog.length <;> simp [hs])

theorem safeRemoveKey_password (km : keyManager) (k : Key) (cbs : List ExtraWrite) :
    ((km.safeRemoveKey k cbs).2).password = km.password := by
  cases hv : k.variant <;>
    simp only [keyManager.safeRemoveKey, getFieldNameForKey, hv, keyManager.save] <;>
    first
      | rfl
      | (cases hs : km.orm.saveResult km.saveLog.length <;> simp [hs])

theorem getFieldMap_updateCSA (kr : keyRing) (m : KeyMap) (g : String)
    (hg : g ≠ "CSA") :
    keyRing.getFieldMap { kr with CSA := m } g = kr.getFieldMap g := by
  simp [keyRing.getFieldMap, hg]

theorem getFieldMap_updateEth (kr : keyRing) (m : KeyMap) (g : String)
    (hg : g ≠ "Eth") :
    keyRing.getFieldMap { kr with Eth := m } g = kr.getFieldMap g := by
  simp [keyRing.getFieldMap, hg]

theorem getFieldMap_updateOCR (kr : keyRing) (m : KeyMap) (g : String)
    (hg : g ≠ "OCR") :
    keyRing.getFieldMap { kr with OCR := m } g = kr.getFieldMap g := by
  simp [keyRing.getFieldMap, hg]

theorem getFieldMap_updateP2P (kr : keyRing) (m : KeyMap) (g : String)
    (hg : g ≠ "P2P") :
    keyRing.getFieldMap { kr with P2P := m } g = kr.getFieldMap g := by
  simp [keyRing.getFieldMap, hg]

theorem getFieldMap_updateVRF (kr : keyRing) (m : KeyMap) (g : String)
    (hg : g ≠ "VRF") :
    keyRing.getFieldMap { kr with VRF := m } g = kr.getFieldMap g := by
  simp [keyRing.getFieldMap, hg]

/-- Case characterization of a first Unlock (no password set yet), one
conjunct per exit point of the source. -/
theorem Unlock_first_cases (km : keyManager) (p : String)
    (hpw : km.password = "") :
    (∀ e, km.orm.getEncryptedKeyRing = .error e →
      km.Unlock p = (.error (.wrap "unable to get encrypted key ring" e), km)) ∧
    (∀ ekr e, km.orm.getEncryptedKeyRing = .ok ekr →
      ekr.Decrypt p = .error e →
      km.Unlock p = (.error (.wrap "unable to decrypt encrypted key ring" e), km)) ∧
    (∀ ekr kr e, km.orm.getEncryptedKeyRing = .ok ekr →
      ekr.Decrypt p = .ok kr → km.orm.loadKeyStates = .error e →
      km.Unlock p = (.error (.wrap "unable to load key states" e),
        { km with keyRing := kr })) ∧
    (∀ ekr kr ks e, km.orm.getEncryptedKeyRing = .ok ekr →
      ekr.Decrypt p = .ok kr → km.orm.loadKeyStates = .ok ks →
      keyStates.validate ks kr = .error e →
      km.Unlock p = (.error e, { km with keyRing := kr })) ∧
    (∀ ekr kr ks, km.orm.getEncryptedKeyRing = .ok ekr →
      ekr.Decrypt p = .ok kr → km.orm.loadKeyStates = .ok ks →
      keyStates.validate ks kr = .ok () →
      km.Unlock p = (.ok (),
        { km with keyRing := kr, keyStates := ks, password := p })) := by
  refine ⟨?_, ?_, ?_, ?_, ?_⟩
  · intro e h1
    simp [keyManager.Unlock, hpw, h1]
  · intro ekr e h1 h2
    simp [keyManager.Unlock, hpw, h1, h2]
  · intro ekr kr e h1 h2 h3
    simp [keyManager.Unlock, hpw, h1, h2, h3]
  · intro ekr kr ks e h1 h2 h3 h4
    simp [keyManager.Unlock, hpw, h1, h2, h3, h4]
  · intro ekr kr ks h1 h2 h3 h4
    simp [keyManager.Unlock, hpw, h1, h2, h3, h4]

/-- Case characterization of a repeated Unlock (password already set). -/
theorem Unlock_again_cases (km : keyManager) (p : String)
    (hpw : km.password ≠ "") :
    (p = km.password → km.Unlock p = (.ok (), km)) ∧
    (p ≠ km.password → km.Unlock p = (.error .passwordMismatch, km)) := by
  constructor
  · intro hp
    simp [keyManager.Unlock, hpw, hp]
  · intro hp
    simp [keyManager.Unlock, hpw, hp]

/-! ### Lemmas about the migration loops -/

theorem migrateKeysInto_lookup_preserved (ks : List Key) (m : KeyMap)
    (i : String) (v : Key) (h : mapLookup m i = some v) :
    mapLookup (migrateKeysInto m ks) i = some v := by
  induction ks generalizing m with
  | nil => simpa [migrateKeysInto] using h
  | cons k rest ih =>
    by_cases hk : (mapLookup m k.ID).isSome = true
    · simp only [migrateKeysInto, hk, if_true]
      exact ih m h
    · simp only [migrateKeysInto, hk, if_false]
      apply ih
      by_cases hi : i = k.ID
      · subst hi
        rw [h] at hk
        simp at hk
      · rw [mapLookup_insert_ne _ _ _ _ hi]
        exact h

theorem migrateKeysInto_isSome (ks : List Key) (m : KeyMap) (i : String)
    (h : (mapLookup m i).isSome = true) :
    (mapLookup (migrateKeysInto m ks) i).isSome = true := by
  obtain ⟨v, hv⟩ := Option.isSome_iff_exists.mp h
  rw [migrateKeysInto_lookup_preserved ks m i v hv]
  rfl

theorem migrateKeysInto_mem (ks : List Key) (m : KeyMap) :
    ∀ k ∈ ks, (mapLookup (migrateKeysInto m ks) k.ID).isSome = true := by
  induction ks generalizing m with
  | nil => intro k hk; simp at hk
  | cons k0 rest ih =>
    intro k hk
    rcases List.mem_cons.mp hk with hk | hk
    · subst hk
      by_cases h0 : (mapLookup m k.ID).isSome = true
      · simp only [migrateKeysInto, h0, if_true]
        exact migrateKeysInto_isSome rest m k.ID h0
      · simp only [migrateKeysInto, h0, if_false]
        apply migrateKeysInto_isSome
        rw [mapLookup_insert_self]
        rfl
    · by_cases h0 : (mapLookup m k0.ID).isSome = true
      · simp only [migrateKeysInto, h0, if_true]
        exact ih m k hk
      · simp only [migrateKeysInto, h0, if_false]
        exact ih _ k hk

theorem migrateKeysInto_all_present (ks : List Key) (m : KeyMap)
    (h : ∀ k ∈ ks, (mapLookup m k.ID).isSome = true) :
    migrateKeysInto m ks = m := by
  induction ks with
  | nil => rfl
  | cons k rest ih =>
    have hk := h k (List.mem_cons_self k rest)
    simp only [migrateKeysInto, hk, if_true]
    exact ih fun q hq => h q (List.mem_cons_of_mem _ hq)

theorem migrateKeysInto_nodup (ks : List Key) (m : KeyMap)
    (h : m.NodupKeys) : (migrateKeysInto m ks).NodupKeys := by
  induction ks generalizing m with
  | nil => exact h
  | cons k rest ih =>
    by_cases h0 : (mapLookup m k.ID).isSome = true
    · simp only [migrateKeysInto, h0, if_true]
      exact ih m h
    · simp only [migrateKeysInto, h0, if_false]
      exact ih _ (mapInsert_nodup m k.ID k h)

theorem ethTrace_fields (pairs : List (Key × ethKeyState)) (ring : keyRing)
    (pw : String) (sp : Nat) :
    (ethMigrationTrace ring pw sp pairs).1.CSA = ring.CSA ∧
    (ethMigrationTrace ring pw sp pairs).1.OCR = ring.OCR ∧
    (ethMigrationTrace ring pw sp pairs).1.P2P = ring.P2P ∧
    (ethMigrationTrace ring pw sp pairs).1.VRF = ring.VRF := by
  induction pairs generalizing ring with
  | nil => exact ⟨rfl, rfl, rfl, rfl⟩
  | cons p rest ih =>
    obtain ⟨k, st⟩ := p
    by_cases h0 : (mapLookup ring.Eth k.ID).isSome = true
    · simp only [ethMigrationTrace, h0, if_true]
      exact ih ring
    · simp only [ethMigrationTrace, h0, if_false]
      exact ih _

theorem ethTrace_lookup_preserved (pairs : List (Key × ethKeyState))
    (ring : keyRing) (pw : String) (sp : Nat) (i : String) (v : Key)
    (h : mapLookup ring.Eth i = some v) :
    mapLookup (ethMigrationTrace ring pw sp pairs).1.Eth i = some v := by
  induction pairs generalizing ring with
  | nil => exact h
  | cons p rest ih =>
    obtain ⟨k, st⟩ := p
    by_cases h0 : (mapLookup ring.Eth k.ID).isSome = true
    · simp only [ethMigrationTrace, h0, if_true]
      exact ih ring h
    · simp only [ethMigrationTrace, h0, if_false]
      apply ih
      show mapLookup (mapInsert ring.Eth k.ID k) i = some v
      by_cases hi : i = k.ID
      · subst hi
        rw [h] at h0
        simp at h0
      · rw [mapLookup_insert_ne _ _ _ _ hi]
        exact h

theorem ethTrace_isSome (pairs : List (Key × ethKeyState)) (ring : keyRing)
    (pw : String) (sp : Nat) (i : String)
    (h : (mapLookup ring.Eth i).isSome = true) :
    (mapLookup (ethMigrationTrace ring pw sp pairs).1.Eth i).isSome = true := by
  obtain ⟨v, hv⟩ := Option.isSome_iff_exists.mp h
  rw [ethTrace_lookup_preserved pairs ring pw sp i v hv]
  rfl

theorem ethTrace_mem (pairs : List (Key × ethKeyState)) (ring : keyRing)
    (pw : String) (sp : Nat) :
    ∀ p ∈ pairs,
      (mapLookup (ethMigrationTrace ring pw sp pairs).1.Eth p.1.ID).isSome = true := by
  induction pairs generalizing ring with
  | nil => intro p hp; simp at hp
  | cons q rest ih =>
    intro p hp
    obtain ⟨k, st⟩ := q
    rcases List.mem_cons.mp hp with hp | hp
    · subst hp
      by_cases h0 : (mapLookup ring.Eth k.ID).isSome = true
      · simp only [ethMigrationTrace, h0, if_true]
        exact ethTrace_isSome rest ring pw sp k.ID h0
      · simp only [ethMigrationTrace, h0, if_false]
        apply ethTrace_isSome
        show (mapLookup (mapInsert ring.Eth k.ID k) k.ID).isSome = true
        rw [mapLookup_insert_self]
        rfl
    · by_cases h0 : (mapLookup ring.Eth k.ID).isSome = true
      · simp only [ethMigrationTrace, h0, if_true]
        exact ih ring p hp
      · simp only [ethMigrationTrace, h0, if_false]
        exact ih _ p hp

theorem ethTrace_all_present (pairs : List (Key × ethKeyState))
    (ring : keyRing) (pw : String) (sp : Nat)
    (h : ∀ p ∈ pairs, (mapLookup ring.Eth p.1.ID).isSome = true) :
    ethMigrationTrace ring pw sp pairs = (ring, []) := by
  induction pairs with
  | nil => rfl
  | cons q rest ih =>
    obtain ⟨k, st⟩ := q
    have hk := h (k, st) (List.mem_cons_self _ rest)
    simp only [ethMigrationTrace, hk, if_true]
    exact ih fun p hp => h p (List.mem_cons_of_mem _ hp)

theorem ethTrace_nodup (pairs : List (Key × ethKeyState)) (ring : keyRing)
    (pw : String) (sp : Nat) (h : ring.Eth.NodupKeys) :
    (ethMigrationTrace ring pw sp pairs).1.Eth.NodupKeys := by
  induction pairs generalizing ring with
  | nil => exact h
  | cons q rest ih =>
    obtain ⟨k, st⟩ := q
    by_cases h0 : (mapLookup ring.Eth k.ID).isSome = true
    · simp only [ethMigrationTrace, h0, if_true]
      exact ih ring h
    · simp only [ethMigrationTrace, h0, if_false]
      exact ih _ (mapInsert_nodup ring.Eth k.ID k h)

/-- Characterization of the Eth loop of Migrate when every save succeeds
and every legacy Eth key is of the Eth family: it succeeds, the ring and
the persistence log evolve exactly as described by ethMigrationTrace. -/
theorem migrateEthKeys_ok (pairs : List (Key × ethKeyState)) (km : keyManager)
    (hvar : ∀ p ∈ pairs, p.1.variant = .eth)
    (hsave : ∀ n, km.orm.saveResult n = .ok ()) :
    migrateEthKeys km pairs =
      (.ok (), { km with
        keyRing := (ethMigrationTrace km.keyRing km.password km.scryptParams pairs).1,
        saveLog := km.saveLog ++
          (ethMigrationTrace km.keyRing km.password km.scryptParams pairs).2 }) := by
  induction pairs generalizing km with
  | nil => simp [migrateEthKeys, ethMigrationTrace]
  | cons q rest ih =>
    obtain ⟨k, st⟩ := q
    have hkvar : k.variant = .eth := hvar (k, st) (List.mem_cons_self _ _)
    by_cases h0 : (mapLookup km.keyRing.Eth k.ID).isSome = true
    · simp only [migrateEthKeys, ethMigrationTrace, h0, if_true]
      exact ih km (fun p hp => hvar p (List.mem_cons_of_mem _ hp)) hsave
    · have hadd := safeAddKey_eth_save_ok km k [.ethState st] hkvar (hsave _)
      simp only [migrateEthKeys, h0, if_false, keyManager.addEthKeyWithState, hadd,
        keyManager.save, hsave]
      rw [if_neg Bool.false_eq_true_eq_False]
      refine (ih { km with
          keyRing := { km.keyRing with Eth := mapInsert km.keyRing.Eth k.ID k },
          saveLog := km.saveLog ++
            [⟨keyRing.Encrypt { km.keyRing with Eth := mapInsert km.keyRing.Eth k.ID k }
                km.password km.scryptParams, [ExtraWrite.ethState st]⟩] ++
            [⟨keyRing.Encrypt { km.keyRing with Eth := mapInsert km.keyRing.Eth k.ID k }
                km.password km.scryptParams, []⟩] }
        (fun p hp => hvar p (List.mem_cons_of_mem _ hp)) hsave).trans ?_
      simp only [ethMigrationTrace, h0, if_false]
      simp [List.append_assoc]
/-- Characterization of a fully successful Migrate: the four families are
merged in memory with no persistence, one bulk save (no extra writes)
persists the merged ring, then the Eth loop runs as described by
ethMigrationTrace. -/
theorem Migrate_all_ok (km : keyManager) (src : LegacySource)
    (cs os ps vs eks : List Key) (sts : List ethKeyState)
    (hpw : km.password ≠ "")
    (hsave : ∀ n, km.orm.saveResult n = .ok ())
    (hcs : src.csaKeys = .ok cs) (hos : src.ocrKeys = .ok os)
    (hps : src.p2pKeys = .ok ps) (hvs : src.vrfKeys = .ok vs)
    (heth : src.ethKeys = .ok (eks, sts))
    (hvar : ∀ p ∈ eks.zip sts, p.1.variant = .eth) :
    master.Migrate km src =
      (.ok (), { km with
        keyRing := (ethMigrationTrace (mergedFamilies km.keyRing cs os ps vs)
          km.password km.scryptParams (eks.zip sts)).1,
        saveLog := km.saveLog ++
          (⟨(mergedFamilies km.keyRing cs os ps vs).Encrypt km.password km.scryptParams, []⟩ ::
            (ethMigrationTrace (mergedFamilies km.keyRing cs os ps vs)
              km.password km.scryptParams (eks.zip sts)).2) }) := by
  have hlock := isLocked_eq_false hpw
  simp only [master.Migrate, hlock, hcs, hos, hps, hvs, keyManager.save, hsave, heth]
  rw [if_neg Bool.false_eq_true_eq_False]
  refine (migrateEthKeys_ok (eks.zip sts) { km with
      keyRing := mergedFamilies km.keyRing cs os ps vs,
      saveLog := km.saveLog ++
        [⟨(mergedFamilies km.keyRing cs os ps vs).Encrypt km.password km.scryptParams, []⟩] }
    hvar hsave).trans ?_
  simp [mergedFamilies, List.append_assoc]

theorem keyRing.ext' (a b : keyRing) (h1 : a.CSA = b.CSA) (h2 : a.Eth = b.Eth)
    (h3 : a.OCR = b.OCR) (h4 : a.P2P = b.P2P) (h5 : a.VRF = b.VRF) : a = b := by
  cases a
  cases b
  simp_all

/-! ### Claim theorems -/

/-- C7: for every handle and callback, the transactional executor reuses an
already-open transaction directly (running the callback against it, with no
nested transaction begun), opens a fresh transaction for a plain connection
(committing on success, rolling back on error), rejects any other handle
type when the test-only override is unset, and runs the callback against
the handle as-is when it is set. -/
theorem SqlxTransaction_nesting (allow : Bool) (fc : Queryer → Except Err Unit)
    (i : Nat) (t : String) :
    SqlxTransaction allow (.tx i) fc = (fc (.tx i), [.runFn (.tx i)]) ∧
    SqlxTransaction allow (.db i) fc =
      (match fc (.tx i) with
        | .ok _ => (Except.ok (), [TxEvent.beginTx, .runFn (.tx i), .commitTx])
        | .error e => (Except.error e, [TxEvent.beginTx, .runFn (.tx i), .rollbackTx])) ∧
    SqlxTransaction false (.other t) fc = (.error .invalidDbType, []) ∧
    SqlxTransaction true (.other t) fc = (fc (.other t), [.runFn (.other t)]) := by
  refine ⟨rfl, ?_, rfl, rfl⟩
  cases h : fc (.tx i) <;> simp [SqlxTransaction, sqlxTransactionQ, h]

/-- C9: a key value whose concrete variant is none of the five families is
rejected by safeAddKey and safeRemoveKey with an unknown-key-type error
before any mutation (the manager is returned untouched); for the five
family variants the dispatch returns exactly that family's field name, and
the mutation touches no other family's map. -/
theorem safeKey_family_dispatch (km : keyManager) (k : Key)
    (cbs : List ExtraWrite) (t : String) :
    (k.variant = .foreign t →
      km.safeAddKey k cbs = (.error (.unknownKeyType t), km) ∧
      km.safeRemoveKey k cbs = (.error (.unknownKeyType t), km)) ∧
    (k.variant = .csa → getFieldNameForKey k = .ok "CSA") ∧
    (k.variant = .eth → getFieldNameForKey k = .ok "Eth") ∧
    (k.variant = .ocr → getFieldNameForKey k = .ok "OCR") ∧
    (k.variant = .p2p → getFieldNameForKey k = .ok "P2P") ∧
    (k.variant = .vrf → getFieldNameForKey k = .ok "VRF") ∧
    (∀ f g, getFieldNameForKey k = .ok f → g ≠ f →
      ((km.safeAddKey k cbs).2).keyRing.getFieldMap g = km.keyRing.getFieldMap g ∧
      ((km.safeRemoveKey k cbs).2).keyRing.getFieldMap g = km.keyRing.getFieldMap g) := by
  refine ⟨?_, ?_, ?_, ?_, ?_, ?_, ?_⟩
  · intro hv
    constructor <;> simp [keyManager.safeAddKey, keyManager.safeRemoveKey,
      getFieldNameForKey, hv]
  · intro hv; simp [getFieldNameForKey, hv]
  · intro hv; simp [getFieldNameForKey, hv]
  · intro hv; simp [getFieldNameForKey, hv]
  · intro hv; simp [getFieldNameForKey, hv]
  · intro hv; simp [getFieldNameForKey, hv]
  · intro f g hok hg
    cases hv : k.variant <;> rw [getFieldNameForKey, hv] at hok <;>
      simp only [Except.ok.injEq] at hok
    case foreign => exact absurd hok (by simp)
    case csa =>
      subst hok
      constructor <;>
        (simp only [keyManager.safeAddKey, keyManager.safeRemoveKey,
          getFieldNameForKey, hv, keyManager.save, keyRing.setFieldMap] <;>
         cases hs : km.orm.saveResult km.saveLog.length <;>
         simp [hs, getFieldMap_updateCSA _ _ _ hg])
    case eth =>
      subst hok
      constructor <;>
        (simp only [keyManager.safeAddKey, keyManager.safeRemoveKey,
          getFieldNameForKey, hv, keyManager.save, keyRing.setFieldMap] <;>
         cases hs : km.orm.saveResult km.saveLog.length <;>
         simp [hs, getFieldMap_updateEth _ _ _ hg])
    case ocr =>
      subst hok
      constructor <;>
        (simp only [keyManager.safeAddKey, keyManager.safeRemoveKey,
          getFieldNameForKey, hv, keyManager.save, keyRing.setFieldMap] <;>
         cases hs : km.orm.saveResult km.saveLog.length <;>
         simp [hs, getFieldMap_updateOCR _ _ _ hg])
    case p2p =>
      subst hok
      constructor <;>
        (simp only [keyManager.safeAddKey, keyManager.safeRemoveKey,
          getFieldNameForKey, hv, keyManager.save, keyRing.setFieldMap] <;>
         cases hs : km.orm.saveResult km.saveLog.length <;>
         simp [hs, getFieldMap_updateP2P _ _ _ hg])
    case vrf =>
      subst hok
      constructor <;>
        (simp only [keyManager.safeAddKey, keyManager.safeRemoveKey,
          getFieldNameForKey, hv, keyManager.save, keyRing.setFieldMap] <;>
         cases hs : km.orm.saveResult km.saveLog.length <;>
         simp [hs, getFieldMap_updateVRF _ _ _ hg])

/-- C9 witness: the dispatch facts at concrete inputs — a foreign key is
rejected with the manager untouched, a CSA key dispatches to "CSA", and an
Eth add leaves the CSA map untouched. -/
theorem safeKey_family_dispatch_witness :
    keyManager.safeAddKey (unlockedKM ormAllOK sampleRing) foreignKey1 [] =
      (.error (.unknownKeyType "ocr2key.KeyBundle"), unlockedKM ormAllOK sampleRing) ∧
    getFieldNameForKey csaKey1 = .ok "CSA" ∧
    ((keyManager.safeAddKey (unlockedKM ormAllOK sampleRing) ethKey1b []).2).keyRing.getFieldMap "CSA" =
      (unlockedKM ormAllOK sampleRing).keyRing.getFieldMap "CSA" := by
  refine ⟨?_, ?_, ?_⟩
  · exact ((safeKey_family_dispatch (unlockedKM ormAllOK sampleRing) foreignKey1 []
      "ocr2key.KeyBundle").1 rfl).1
  · exact (safeKey_family_dispatch (unlockedKM ormAllOK sampleRing) csaKey1 []
      "unused").2.1 rfl
  · exact ((safeKey_family_dispatch (unlockedKM ormAllOK sampleRing) ethKey1b []
      "unused").2.2.2.2.2.2 "Eth" "CSA" rfl (by decide)).1

/-- C8: when a key whose id already exists in its family map is added again
through safeAddKey and the save succeeds, the existing entry is overwritten
rather than duplicated: the map afterwards binds that id to the new key and
holds exactly one entry for it. -/
theorem safeAddKey_overwrite_unique (km : keyManager) (k : Key)
    (cbs : List ExtraWrite) (f : String)
    (hf : getFieldNameForKey k = .ok f)
    (hexist : (mapLookup (km.keyRing.getFieldMap f) k.ID).isSome = true)
    (hnodup : (km.keyRing.getFieldMap f).NodupKeys)
    (hs : km.orm.saveResult km.saveLog.length = .ok ()) :
    (km.safeAddKey k cbs).1 = .ok () ∧
    mapLookup (((km.safeAddKey k cbs).2).keyRing.getFieldMap f) k.ID = some k ∧
    KeyMap.countId (((km.safeAddKey k cbs).2).keyRing.getFieldMap f) k.ID = 1 := by
  cases hv : k.variant <;> rw [getFieldNameForKey, hv] at hf <;>
    simp only [Except.ok.injEq] at hf
  case foreign => exact absurd hf (by simp)
  all_goals subst hf
  all_goals simp [keyRing.getFieldMap] at hnodup
  case csa =>
    simp [keyManager.safeAddKey, getFieldNameForKey, hv, keyManager.save, hs,
      keyRing.setFieldMap, keyRing.getFieldMap, mapLookup_insert_self,
      mapInsert_countId _ _ _ hnodup]
  case eth =>
    simp [keyManager.safeAddKey, getFieldNameForKey, hv, keyManager.save, hs,
      keyRing.setFieldMap, keyRing.getFieldMap, mapLookup_insert_self,
      mapInsert_countId _ _ _ hnodup]
  case ocr =>
    simp [keyManager.safeAddKey, getFieldNameForKey, hv, keyManager.save, hs,
      keyRing.setFieldMap, keyRing.getFieldMap, mapLookup_insert_self,
      mapInsert_countId _ _ _ hnodup]
  case p2p =>
    simp [keyManager.safeAddKey, getFieldNameForKey, hv, keyManager.save, hs,
      keyRing.setFieldMap, keyRing.getFieldMap, mapLookup_insert_self,
      mapInsert_countId _ _ _ hnodup]
  case vrf =>
    simp [keyManager.safeAddKey, getFieldNameForKey, hv, keyManager.save, hs,
      keyRing.setFieldMap, keyRing.getFieldMap, mapLookup_insert_self,
      mapInsert_countId _ _ _ hnodup]

/-- C8 witness: re-adding the id "addr1" with a new key value over a ring
already holding it leaves exactly one binding, now to the new value. -/
theorem safeAddKey_overwrite_unique_witness :
    (keyManager.safeAddKey (unlockedKM ormAllOK sampleRing) ethKey1b []).1 = .ok () ∧
    mapLookup (((keyManager.safeAddKey (unlockedKM ormAllOK sampleRing) ethKey1b []).2).keyRing.getFieldMap "Eth")
      (Key.ID ethKey1b) = some ethKey1b ∧
    KeyMap.countId (((keyManager.safeAddKey (unlockedKM ormAllOK sampleRing) ethKey1b []).2).keyRing.getFieldMap "Eth")
      (Key.ID ethKey1b) = 1 :=
  safeAddKey_overwrite_unique (unlockedKM ormAllOK sampleRing) ethKey1b [] "Eth"
    rfl (by decide) (by decide) rfl

/-- C10: the password field is assigned only as the last step of a fully
successful first Unlock: a failed Unlock never changes the password, and
when the manager was locked before the call it is still locked (empty
password, isLocked true) after any failed Unlock, whichever step failed. -/
theorem Unlock_failure_keeps_locked (km : keyManager) (p : String) (e : Err)
    (km2 : keyManager) (hfail : km.Unlock p = (.error e, km2)) :
    km2.password = km.password ∧
    (km.password = "" → km2.password = "" ∧ km2.isLocked = true) := by
  by_cases hpw : km.password = ""
  · obtain ⟨h1, h2, h3, h4, h5⟩ := Unlock_first_cases km p hpw
    cases horm : km.orm.getEncryptedKeyRing with
    | error e0 =>
      rw [h1 e0 horm] at hfail
      have hkm : km2 = km := (congrArg Prod.snd hfail).symm
      subst hkm
      exact ⟨rfl, fun h => ⟨h, isLocked_eq_true h⟩⟩
    | ok ekr =>
      cases hdec : ekr.Decrypt p with
      | error e0 =>
        rw [h2 ekr e0 horm hdec] at hfail
        have hkm : km2 = km := (congrArg Prod.snd hfail).symm
        subst hkm
        exact ⟨rfl, fun h => ⟨h, isLocked_eq_true h⟩⟩
      | ok kr =>
        cases hls : km.orm.loadKeyStates with
        | error e0 =>
          rw [h3 ekr kr e0 horm hdec hls] at hfail
          have hkm : km2 = { km with keyRing := kr } :=
            (congrArg Prod.snd hfail).symm
          subst hkm
          exact ⟨rfl, fun h => ⟨h, isLocked_eq_true h⟩⟩
        | ok ks =>
          cases hval : keyStates.validate ks kr with
          | error e0 =>
            rw [h4 ekr kr ks e0 horm hdec hls hval] at hfail
            have hkm : km2 = { km with keyRing := kr } :=
              (congrArg Prod.snd hfail).symm
            subst hkm
            exact ⟨rfl, fun h => ⟨h, isLocked_eq_true h⟩⟩
          | ok u =>
            cases u
            rw [h5 ekr kr ks horm hdec hls hval] at hfail
            simp at hfail
  · obtain ⟨hsame, hdiff⟩ := Unlock_again_cases km p hpw
    by_cases hp : p = km.password
    · rw [hsame hp] at hfail
      simp at hfail
    · rw [hdiff hp] at hfail
      have hkm : km2 = km := (congrArg Prod.snd hfail).symm
      subst hkm
      exact ⟨rfl, fun h => absurd h hpw⟩

/-- C10 witness: a first Unlock that fails at the key-state load leaves the
password empty and the manager locked (even though the ring field was
already assigned). -/
theorem Unlock_failure_keeps_locked_witness :
    keyManager.Unlock (lockedKM ormLoadStatesFail) "pw" =
      (.error (.wrap "unable to load key states" (.persistence "down")),
       { lockedKM ormLoadStatesFail with keyRing := sampleRing }) ∧
    ({ lockedKM ormLoadStatesFail with keyRing := sampleRing } : keyManager).password = "" ∧
    ({ lockedKM ormLoadStatesFail with keyRing := sampleRing } : keyManager).isLocked = true := by
  have h := Unlock_failure_keeps_locked (lockedKM ormLoadStatesFail) "pw"
    (.wrap "unable to load key states" (.persistence "down"))
    { lockedKM ormLoadStatesFail with keyRing := sampleRing } rfl
  exact ⟨rfl, (h.2 rfl).1, (h.2 rfl).2⟩

/-- C1 (amended): on a first Unlock, a fetch or decrypt failure returns the
wrapped error with the whole guarded state unchanged; a key-state load or
validation failure returns the corresponding error with password and key
states unchanged (the manager stays locked) although the key ring field has
already been assigned the decrypted ring; password, ring and states are all
committed together only when every step succeeds. -/
theorem Unlock_first_failure_commit (km : keyManager) (p : String)
    (hpw : km.password = "") :
    (∀ e, km.orm.getEncryptedKeyRing = .error e →
      km.Unlock p = (.error (.wrap "unable to get encrypted key ring" e), km)) ∧
    (∀ ekr e, km.orm.getEncryptedKeyRing = .ok ekr → ekr.Decrypt p = .error e →
      km.Unlock p = (.error (.wrap "unable to decrypt encrypted key ring" e), km)) ∧
    (∀ ekr kr e, km.orm.getEncryptedKeyRing = .ok ekr → ekr.Decrypt p = .ok kr →
      km.orm.loadKeyStates = .error e →
      (km.Unlock p).1 = .error (.wrap "unable to load key states" e) ∧
      ((km.Unlock p).2).password = "" ∧
      ((km.Unlock p).2).keyStates = km.keyStates ∧
      ((km.Unlock p).2).keyRing = kr) ∧
    (∀ ekr kr ks e, km.orm.getEncryptedKeyRing = .ok ekr → ekr.Decrypt p = .ok kr →
      km.orm.loadKeyStates = .ok ks → keyStates.validate ks kr = .error e →
      (km.Unlock p).1 = .error e ∧
      ((km.Unlock p).2).password = "" ∧
      ((km.Unlock p).2).keyStates = km.keyStates ∧
      ((km.Unlock p).2).keyRing = kr) ∧
    (∀ ekr kr ks, km.orm.getEncryptedKeyRing = .ok ekr → ekr.Decrypt p = .ok kr →
      km.orm.loadKeyStates = .ok ks → keyStates.validate ks kr = .ok () →
      km.Unlock p = (.ok (),
        { km with keyRing := kr, keyStates := ks, password := p })) := by
  obtain ⟨h1, h2, h3, h4, h5⟩ := Unlock_first_cases km p hpw
  refine ⟨h1, h2, ?_, ?_, h5⟩
  · intro ekr kr e a b c
    rw [h3 ekr kr e a b c]
    exact ⟨rfl, hpw, rfl, rfl⟩
  · intro ekr kr ks e a b c d
    rw [h4 ekr kr ks e a b c d]
    exact ⟨rfl, hpw, rfl, rfl⟩

/-- C1 witness: a first Unlock against an absent encrypted key ring returns
the wrapped fetch error with the manager unchanged. -/
theorem Unlock_first_failure_commit_witness :
    keyManager.Unlock (lockedKM ormNotFound) "pw" =
      (.error (.wrap "unable to get encrypted key ring" .notFound),
       lockedKM ormNotFound) :=
  (Unlock_first_failure_commit (lockedKM ormNotFound) "pw" rfl).1 .notFound rfl

/-- C1 counterexample: when the key-state load fails, the first Unlock
returns an error but the key ring field has already been replaced by the
decrypted ring — the guarded state is not unchanged, contradicting the
claim that ring, states and password are committed only atomically on full
success with no partial commit. -/
theorem Unlock_first_partial_commit_counterexample :
    (keyManager.Unlock (lockedKM ormLoadStatesFail) "pw").1 =
      .error (.wrap "unable to load key states" (.persistence "down")) ∧
    ((keyManager.Unlock (lockedKM ormLoadStatesFail) "pw").2).keyRing ≠
      (lockedKM ormLoadStatesFail).keyRing := by
  exact ⟨rfl, by decide⟩

/-- C2 (amended): when the save fails, safeAddKey and safeRemoveKey return
that error, and the ring is unchanged provided the mutation was genuinely
new information: for safeAddKey, that the key's id was not already bound in
its family map (otherwise the rollback deletes the pre-existing entry
instead of restoring it); for safeRemoveKey, that the family map bound the
id to exactly the given key value (the rollback re-inserts the passed
value, not the stored one). -/
theorem safe_mutation_rollback (km : keyManager) (k : Key)
    (cbs : List ExtraWrite) (f : String) (e : Err)
    (hf : getFieldNameForKey k = .ok f)
    (hs : km.orm.saveResult km.saveLog.length = .error e) :
    (mapLookup (km.keyRing.getFieldMap f) k.ID = none →
      (km.safeAddKey k cbs).1 = .error e ∧
      ((km.safeAddKey k cbs).2).keyRing = km.keyRing) ∧
    (mapLookup (km.keyRing.getFieldMap f) k.ID = some k →
      (km.safeRemoveKey k cbs).1 = .error e ∧
      keyRing.Equiv ((km.safeRemoveKey k cbs).2).keyRing km.keyRing) := by
  cases hv : k.variant <;> rw [getFieldNameForKey, hv] at hf <;>
    simp only [Except.ok.injEq] at hf
  case foreign => exact absurd hf (by simp)
  all_goals subst hf
  case csa =>
    constructor
    · intro hnone
      simp [keyRing.getFieldMap] at hnone
      simp [keyManager.safeAddKey, getFieldNameForKey, hv, keyManager.save, hs,
        keyRing.setFieldMap, keyRing.getFieldMap, mapErase_insert_fresh _ _ _ hnone]
    · intro hsome
      simp [keyRing.getFieldMap] at hsome
      simp [keyManager.safeRemoveKey, getFieldNameForKey, hv,
        keyManager.save, hs, keyRing.setFieldMap, keyRing.getFieldMap]
      exact ⟨mapInsert_erase_equiv _ _ _ hsome,
        fun i => rfl, fun i => rfl, fun i => rfl, fun i => rfl⟩
  case eth =>
    constructor
    · intro hnone
      simp [keyRing.getFieldMap] at hnone
      simp [keyManager.safeAddKey, getFieldNameForKey, hv, keyManager.save, hs,
        keyRing.setFieldMap, keyRing.getFieldMap, mapErase_insert_fresh _ _ _ hnone]
    · intro hsome
      simp [keyRing.getFieldMap] at hsome
      simp [keyManager.safeRemoveKey, getFieldNameForKey, hv,
        keyManager.save, hs, keyRing.setFieldMap, keyRing.getFieldMap]
      exact ⟨fun i => rfl, mapInsert_erase_equiv _ _ _ hsome,
        fun i => rfl, fun i => rfl, fun i => rfl⟩
  case ocr =>
    constructor
    · intro hnone
      simp [keyRing.getFieldMap] at hnone
      simp [keyManager.safeAddKey, getFieldNameForKey, hv, keyManager.save, hs,
        keyRing.setFieldMap, keyRing.getFieldMap, mapErase_insert_fresh _ _ _ hnone]
    · intro hsome
      simp [keyRing.getFieldMap] at hsome
      simp [keyManager.safeRemoveKey, getFieldNameForKey, hv,
        keyManager.save, hs, keyRing.setFieldMap, keyRing.getFieldMap]
      exact ⟨fun i => rfl, fun i => rfl, mapInsert_erase_equiv _ _ _ hsome,
        fun i => rfl, fun i => rfl⟩
  case p2p =>
    constructor
    · intro hnone
      simp [keyRing.getFieldMap] at hnone
      simp [keyManager.safeAddKey, getFieldNameForKey, hv, keyManager.save, hs,
        keyRing.setFieldMap, keyRing.getFieldMap, mapErase_insert_fresh _ _ _ hnone]
    · intro hsome
      simp [keyRing.getFieldMap] at hsome
      simp [keyManager.safeRemoveKey, getFieldNameForKey, hv,
        keyManager.save, hs, keyRing.setFieldMap, keyRing.getFieldMap]
      exact ⟨fun i => rfl, fun i => rfl, fun i => rfl,
        mapInsert_erase_equiv _ _ _ hsome, fun i => rfl⟩
  case vrf =>
    constructor
    · intro hnone
      simp [keyRing.getFieldMap] at hnone
      simp [keyManager.safeAddKey, getFieldNameForKey, hv, keyManager.save, hs,
        keyRing.setFieldMap, keyRing.getFieldMap, mapErase_insert_fresh _ _ _ hnone]
    · intro hsome
      simp [keyRing.getFieldMap] at hsome
      simp [keyManager.safeRemoveKey, getFieldNameForKey, hv,
        keyManager.save, hs, keyRing.setFieldMap, keyRing.getFieldMap]
      exact ⟨fun i => rfl, fun i => rfl, fun i => rfl, fun i => rfl,
        mapInsert_erase_equiv _ _ _ hsome⟩

/-- C2 witness: a failed add of a fresh CSA key returns the save error and
leaves the ring literally unchanged. -/
theorem safe_mutation_rollback_witness :
    (keyManager.safeAddKey (unlockedKM ormSaveFail sampleRing) csaKey1 []).1 =
      .error (.persistence "boom") ∧
    ((keyManager.safeAddKey (unlockedKM ormSaveFail sampleRing) csaKey1 []).2).keyRing =
      (unlockedKM ormSaveFail sampleRing).keyRing :=
  (safe_mutation_rollback (unlockedKM ormSaveFail sampleRing) csaKey1 []
    "CSA" (.persistence "boom") rfl rfl).1 rfl

/-- C2 counterexample: with the id "addr1" already bound, a failed
safeAddKey of a new value under the same id deletes the pre-existing entry
instead of restoring it, and a failed safeRemoveKey of a value differing
from the stored one re-inserts the passed value — in both cases the ring
after the failed call differs from the ring before it, contradicting the
universal byte-for-byte rollback claim. -/
theorem safe_mutation_rollback_counterexample :
    (keyManager.safeAddKey (unlockedKM ormSaveFail sampleRing) ethKey1b []).1 =
      .error (.persistence "boom") ∧
    mapLookup (unlockedKM ormSaveFail sampleRing).keyRing.Eth "addr1" = some ethKey1 ∧
    mapLookup ((keyManager.safeAddKey (unlockedKM ormSaveFail sampleRing) ethKey1b []).2).keyRing.Eth "addr1" = none ∧
    mapLookup ((keyManager.safeRemoveKey (unlockedKM ormSaveFail sampleRing) ethKey1b []).2).keyRing.Eth "addr1" = some ethKey1b ∧
    ethKey1b ≠ ethKey1 := by
  exact ⟨rfl, by decide, by decide, by decide, by decide⟩

/-- C3: once a password is set by a successful Unlock, a repeated Unlock
with the same password succeeds and changes nothing, a repeated Unlock with
a different password fails with PasswordMismatch and changes nothing, the
outcome is independent of the store (no storage access), and intervening
add/remove calls never change the stored password. -/
theorem Unlock_idempotent_mismatch (km : keyManager) (p2 : String)
    (orm2 : ksORM) (hpw : km.password ≠ "") :
    (p2 = km.password → km.Unlock p2 = (.ok (), km)) ∧
    (p2 ≠ km.password → km.Unlock p2 = (.error .passwordMismatch, km)) ∧
    (keyManager.Unlock { km with orm := orm2 } p2).1 = (km.Unlock p2).1 ∧
    (∀ k cbs, ((km.safeAddKey k cbs).2).password = km.password ∧
      ((km.safeRemoveKey k cbs).2).password = km.password) := by
  obtain ⟨hsame, hdiff⟩ := Unlock_again_cases km p2 hpw
  refine ⟨hsame, hdiff, ?_, ?_⟩
  · by_cases hp : p2 = km.password
    · rw [hsame hp, (Unlock_again_cases { km with orm := orm2 } p2 hpw).1 hp]
    · rw [hdiff hp, (Unlock_again_cases { km with orm := orm2 } p2 hpw).2 hp]
  · intro k cbs
    exact ⟨safeAddKey_password km k cbs, safeRemoveKey_password km k cbs⟩

/-- C3 witness: with password "pw" set, unlocking with "pw" again succeeds
and changes nothing, and unlocking with "pw2" fails with PasswordMismatch
and changes nothing. -/
theorem Unlock_idempotent_mismatch_witness :
    keyManager.Unlock (unlockedKM ormAllOK sampleRing) "pw" =
      (.ok (), unlockedKM ormAllOK sampleRing) ∧
    keyManager.Unlock (unlockedKM ormAllOK sampleRing) "pw2" =
      (.error .passwordMismatch, unlockedKM ormAllOK sampleRing) := by
  have h1 := Unlock_idempotent_mismatch (unlockedKM ormAllOK sampleRing) "pw"
    ormNotFound (by decide)
  have h2 := Unlock_idempotent_mismatch (unlockedKM ormAllOK sampleRing) "pw2"
    ormNotFound (by decide)
  exact ⟨h1.1 rfl, h2.2.1 (by decide)⟩

/-- C4 (amended): with every fetch and save succeeding, Migrate merges the
CSA, OCR, P2P and VRF legacy keys into the in-memory ring with no
per-family persistence, then issues exactly one save (with no extra writes)
of the merged ring, and then, for each legacy Eth key not already present,
a save of the grown ring carrying that key's chain-state write followed by
one additional plain save — two saves per fresh Eth key, not one. -/
theorem Migrate_bulk_then_per_key_saves (km : keyManager) (src : LegacySource)
    (cs os ps vs eks : List Key) (sts : List ethKeyState)
    (hpw : km.password ≠ "")
    (hsave : ∀ n, km.orm.saveResult n = .ok ())
    (hcs : src.csaKeys = .ok cs) (hos : src.ocrKeys = .ok os)
    (hps : src.p2pKeys = .ok ps) (hvs : src.vrfKeys = .ok vs)
    (heth : src.ethKeys = .ok (eks, sts))
    (hvar : ∀ p ∈ eks.zip sts, p.1.variant = .eth) :
    master.Migrate km src =
      (.ok (), { km with
        keyRing := (ethMigrationTrace (mergedFamilies km.keyRing cs os ps vs)
          km.password km.scryptParams (eks.zip sts)).1,
        saveLog := km.saveLog ++
          (⟨(mergedFamilies km.keyRing cs os ps vs).Encrypt km.password km.scryptParams, []⟩ ::
            (ethMigrationTrace (mergedFamilies km.keyRing cs os ps vs)
              km.password km.scryptParams (eks.zip sts)).2) }) :=
  Migrate_all_ok km src cs os ps vs eks sts hpw hsave hcs hos hps hvs heth hvar

/-- C4 witness: migrating one fresh legacy Eth key from an empty unlocked
ring follows exactly the characterized bulk-save-then-per-key trace. -/
theorem Migrate_bulk_then_per_key_saves_witness :
    master.Migrate (unlockedKM ormAllOK emptyKeyRing) ethLegacySource =
      (.ok (), { unlockedKM ormAllOK emptyKeyRing with
        keyRing := (ethMigrationTrace (mergedFamilies emptyKeyRing [] [] [] [])
          "pw" 7 ([legacyEthKey].zip [legacyEthState])).1,
        saveLog := [] ++
          (⟨(mergedFamilies emptyKeyRing [] [] [] []).Encrypt "pw" 7, []⟩ ::
            (ethMigrationTrace (mergedFamilies emptyKeyRing [] [] [] [])
              "pw" 7 ([legacyEthKey].zip [legacyEthState])).2) }) :=
  Migrate_bulk_then_per_key_saves (unlockedKM ormAllOK emptyKeyRing)
    ethLegacySource [] [] [] [] [legacyEthKey] [legacyEthState]
    (by decide) (fun _ => rfl) rfl rfl rfl rfl rfl (by decide)

/-- C4 counterexample: migrating one fresh Eth key issues three saves (the
bulk save, the save carrying the state write, and an additional plain
save), whereas the claim's trace — one bulk save then one individual save
per key — has only two entries; the two traces differ. -/
theorem Migrate_per_key_single_save_counterexample :
    ((master.Migrate (unlockedKM ormAllOK emptyKeyRing) ethLegacySource).2.saveLog.map
        (fun c => c.extraWrites)) =
      [[], [.ethState legacyEthState], []] ∧
    ([] :: claimedEthSaveWrites emptyKeyRing.Eth
        ([legacyEthKey].zip [legacyEthState])) =
      [[], [.ethState legacyEthState]] ∧
    ((master.Migrate (unlockedKM ormAllOK emptyKeyRing) ethLegacySource).2.saveLog.map
        (fun c => c.extraWrites)) ≠
      ([] :: claimedEthSaveWrites emptyKeyRing.Eth
        ([legacyEthKey].zip [legacyEthState])) := by
  exact ⟨rfl, rfl, by decide⟩

/-- C5: with every fetch and save succeeding, a first Migrate succeeds, a
second Migrate against the same legacy source succeeds, leaves the ring
exactly as after the first run (hence the same set of key ids, with
already-present ids skipped), and the no-duplicate-ids invariant of every
family map is preserved. -/
theorem Migrate_idempotent (km : keyManager) (src : LegacySource)
    (cs os ps vs eks : List Key) (sts : List ethKeyState)
    (hpw : km.password ≠ "")
    (hsave : ∀ n, km.orm.saveResult n = .ok ())
    (hcs : src.csaKeys = .ok cs) (hos : src.ocrKeys = .ok os)
    (hps : src.p2pKeys = .ok ps) (hvs : src.vrfKeys = .ok vs)
    (heth : src.ethKeys = .ok (eks, sts))
    (hvar : ∀ p ∈ eks.zip sts, p.1.variant = .eth) :
    (master.Migrate km src).1 = .ok () ∧
    (master.Migrate (master.Migrate km src).2 src).1 = .ok () ∧
    ((master.Migrate (master.Migrate km src).2 src).2).keyRing =
      ((master.Migrate km src).2).keyRing ∧
    (km.keyRing.NodupAll → ((master.Migrate km src).2).keyRing.NodupAll) := by
  have h1 := Migrate_all_ok km src cs os ps vs eks sts hpw hsave hcs hos hps hvs heth hvar
  have hf := ethTrace_fields (eks.zip sts) (mergedFamilies km.keyRing cs os ps vs)
    km.password km.scryptParams
  have hacs : ∀ k ∈ cs,
      (mapLookup ((ethMigrationTrace (mergedFamilies km.keyRing cs os ps vs)
        km.password km.scryptParams (eks.zip sts)).1).CSA k.ID).isSome = true := by
    intro k hk
    rw [hf.1]
    exact migrateKeysInto_mem cs km.keyRing.CSA k hk
  have haos : ∀ k ∈ os,
      (mapLookup ((ethMigrationTrace (mergedFamilies km.keyRing cs os ps vs)
        km.password km.scryptParams (eks.zip sts)).1).OCR k.ID).isSome = true := by
    intro k hk
    rw [hf.2.1]
    exact migrateKeysInto_mem os km.keyRing.OCR k hk
  have haps : ∀ k ∈ ps,
      (mapLookup ((ethMigrationTrace (mergedFamilies km.keyRing cs os ps vs)
        km.password km.scryptParams (eks.zip sts)).1).P2P k.ID).isSome = true := by
    intro k hk
    rw [hf.2.2.1]
    exact migrateKeysInto_mem ps km.keyRing.P2P k hk
  have havs : ∀ k ∈ vs,
      (mapLookup ((ethMigrationTrace (mergedFamilies km.keyRing cs os ps vs)
        km.password km.scryptParams (eks.zip sts)).1).VRF k.ID).isSome = true := by
    intro k hk
    rw [hf.2.2.2]
    exact migrateKeysInto_mem vs km.keyRing.VRF k hk
  have hmerge2 : mergedFamilies ((ethMigrationTrace (mergedFamilies km.keyRing cs os ps vs)
        km.password km.scryptParams (eks.zip sts)).1) cs os ps vs =
      (ethMigrationTrace (mergedFamilies km.keyRing cs os ps vs)
        km.password km.scryptParams (eks.zip sts)).1 :=
    keyRing.ext' _ _ (migrateKeysInto_all_present cs _ hacs) rfl
      (migrateKeysInto_all_present os _ haos)
      (migrateKeysInto_all_present ps _ haps)
      (migrateKeysInto_all_present vs _ havs)
  have hallp := ethTrace_mem (eks.zip sts) (mergedFamilies km.keyRing cs os ps vs)
    km.password km.scryptParams
  have htr2 := ethTrace_all_present (eks.zip sts) _ km.password km.scryptParams hallp
  have h2 := Migrate_all_ok { km with
      keyRing := (ethMigrationTrace (mergedFamilies km.keyRing cs os ps vs)
        km.password km.scryptParams (eks.zip sts)).1,
      saveLog := km.saveLog ++
        (⟨(mergedFamilies km.keyRing cs os ps vs).Encrypt km.password km.scryptParams, []⟩ ::
          (ethMigrationTrace (mergedFamilies km.keyRing cs os ps vs)
            km.password km.scryptParams (eks.zip sts)).2) }
    src cs os ps vs eks sts hpw hsave hcs hos hps hvs heth hvar
  refine ⟨?_, ?_, ?_, ?_⟩
  · simp [h1]
  · simp [h1, h2]
  · simp only [h1, h2]
    rw [hmerge2, htr2]
  · intro hnod
    obtain ⟨n1, n2, n3, n4, n5⟩ := hnod
    simp only [h1]
    refine ⟨?_, ?_, ?_, ?_, ?_⟩
    · rw [hf.1]
      exact migrateKeysInto_nodup cs _ n1
    · exact ethTrace_nodup (eks.zip sts) _ km.password km.scryptParams n2
    · rw [hf.2.1]
      exact migrateKeysInto_nodup os _ n3
    · rw [hf.2.2.1]
      exact migrateKeysInto_nodup ps _ n4
    · rw [hf.2.2.2]
      exact migrateKeysInto_nodup vs _ n5

/-- C5 witness: migrating the one-Eth-key legacy source twice from an empty
unlocked ring: both runs succeed and the second leaves the ring of the
first unchanged. -/
theorem Migrate_idempotent_witness :
    (master.Migrate (unlockedKM ormAllOK emptyKeyRing) ethLegacySource).1 = .ok () ∧
    (master.Migrate (master.Migrate (unlockedKM ormAllOK emptyKeyRing) ethLegacySource).2
      ethLegacySource).1 = .ok () ∧
    ((master.Migrate (master.Migrate (unlockedKM ormAllOK emptyKeyRing) ethLegacySource).2
      ethLegacySource).2).keyRing =
      ((master.Migrate (unlockedKM ormAllOK emptyKeyRing) ethLegacySource).2).keyRing := by
  have h := Migrate_idempotent (unlockedKM ormAllOK emptyKeyRing) ethLegacySource
    [] [] [] [] [legacyEthKey] [legacyEthState]
    (by decide) (fun _ => rfl) rfl rfl rfl rfl rfl (by decide)
  exact ⟨h.1, h.2.1, h.2.2.1⟩

/-- C6 (amended): under the held lock, a failing legacy fetch aborts
Migrate immediately: the fetch error is returned unchanged (no
MigrationError wrapper exists in the code), the families fetched so far are
merged in memory, and the ring maps of every family ordered after the
failing one — and the persistence log, before the bulk save — are left
untouched. -/
theorem Migrate_fetch_failure_halts (km : keyManager) (src : LegacySource)
    (hpw : km.password ≠ "") :
    (∀ e, src.csaKeys = .error e → master.Migrate km src = (.error e, km)) ∧
    (∀ cs e, src.csaKeys = .ok cs → src.ocrKeys = .error e →
      master.Migrate km src = (.error e, { km with keyRing :=
        { km.keyRing with CSA := migrateKeysInto km.keyRing.CSA cs } })) ∧
    (∀ cs os e, src.csaKeys = .ok cs → src.ocrKeys = .ok os →
      src.p2pKeys = .error e →
      master.Migrate km src = (.error e, { km with keyRing :=
        { km.keyRing with
          CSA := migrateKeysInto km.keyRing.CSA cs
          OCR := migrateKeysInto km.keyRing.OCR os } })) ∧
    (∀ cs os ps e, src.csaKeys = .ok cs → src.ocrKeys = .ok os →
      src.p2pKeys = .ok ps → src.vrfKeys = .error e →
      master.Migrate km src = (.error e, { km with keyRing :=
        { km.keyRing with
          CSA := migrateKeysInto km.keyRing.CSA cs
          OCR := migrateKeysInto km.keyRing.OCR os
          P2P := migrateKeysInto km.keyRing.P2P ps } })) ∧
    (∀ cs os ps vs e, src.csaKeys = .ok cs → src.ocrKeys = .ok os →
      src.p2pKeys = .ok ps → src.vrfKeys = .ok vs →
      km.orm.saveResult km.saveLog.length = .ok () → src.ethKeys = .error e →
      master.Migrate km src = (.error e, { km with
        keyRing := mergedFamilies km.keyRing cs os ps vs,
        saveLog := km.saveLog ++
          [⟨(mergedFamilies km.keyRing cs os ps vs).Encrypt km.password
              km.scryptParams, []⟩] })) := by
  have hlock := isLocked_eq_false hpw
  refine ⟨?_, ?_, ?_, ?_, ?_⟩
  · intro e h1
    simp only [master.Migrate, hlock, h1]
    rw [if_neg Bool.false_eq_true_eq_False]
  · intro cs e h1 h2
    simp only [master.Migrate, hlock, h1, h2]
    rw [if_neg Bool.false_eq_true_eq_False]
  · intro cs os e h1 h2 h3
    simp only [master.Migrate, hlock, h1, h2, h3]
    rw [if_neg Bool.false_eq_true_eq_False]
  · intro cs os ps e h1 h2 h3 h4
    simp only [master.Migrate, hlock, h1, h2, h3, h4]
    rw [if_neg Bool.false_eq_true_eq_False]
  · intro cs os ps vs e h1 h2 h3 h4 hs h5
    simp only [master.Migrate, hlock, h1, h2, h3, h4, keyManager.save, hs, h5]
    rw [if_neg Bool.false_eq_true_eq_False]
    simp [mergedFamilies]

/-- C6 witness: with CSA and OCR fetches succeeding and the P2P fetch
failing, Migrate returns the raw fetch error with only the CSA merge
applied. -/
theorem Migrate_fetch_failure_halts_witness :
    master.Migrate (unlockedKM ormAllOK emptyKeyRing) p2pFailSource =
      (.error (.persistence "boom"),
       { unlockedKM ormAllOK emptyKeyRing with keyRing :=
        { emptyKeyRing with
          CSA := migrateKeysInto emptyKeyRing.CSA [csaKey1]
          OCR := migrateKeysInto emptyKeyRing.OCR [] } }) :=
  (Migrate_fetch_failure_halts (unlockedKM ormAllOK emptyKeyRing) p2pFailSource
    (by decide)).2.2.1 [csaKey1] [] (.persistence "boom") rfl rfl rfl

/-- C6 counterexample: when the P2P fetch fails with a plain persistence
error, Migrate returns exactly that error — not a MigrationError wrapper
identifying the family — and the VRF and Eth maps and the persistence log
are untouched. -/
theorem Migrate_error_unwrapped_counterexample :
    (master.Migrate (unlockedKM ormAllOK emptyKeyRing) p2pFailSource).1 =
      .error (.persistence "boom") ∧
    ((master.Migrate (unlockedKM ormAllOK emptyKeyRing) p2pFailSource).2).keyRing.P2P = [] ∧
    ((master.Migrate (unlockedKM ormAllOK emptyKeyRing) p2pFailSource).2).keyRing.VRF = [] ∧
    ((master.Migrate (unlockedKM ormAllOK emptyKeyRing) p2pFailSource).2).keyRing.Eth = [] ∧
    ((master.Migrate (unlockedKM ormAllOK emptyKeyRing) p2pFailSource).2).saveLog = [] ∧
    Err.persistence "boom" ≠ Err.migration "P2P" (Err.persistence "boom") := by
  exact ⟨rfl, rfl, rfl, rfl, rfl, by decide⟩

end Keystore
